import Mathlib

/-!
Shallow embedding of the incremental conversation-reconciliation core of the
AntiGravityProject repository: the anchor matcher (`AnchorDetector`), the
change-set computer (`Compatibility.processMessageChanges`), the bounded
expiring cache (`CacheManager`), the normalizer (`Compatibility.normalizeMessage`)
and the reconciliation coordinator (`StorageManager.smartIncrementalUpdate`),
together with proofs about the behaviours claimed in the specification.

JavaScript strings are modelled by Lean `String` (character-based; the sources
only ever index within ASCII for the properties proved here), JS `number`
timestamps by `Int`, and JS `Map` objects by insertion-ordered association
lists with unique keys, exactly mirroring `Map`'s iteration-order semantics.
-/

namespace AntiGravity

/-- `Message` from `src/preload/types` (part_007). `sender` is one of
"user" / "AI" / "unknown" in the source union type; it is modelled as a
plain string. -/
structure Message where
  messageId : String
  sender : String
  content : String
  thinking : Option String
  position : Nat
  createdAt : String
  updatedAt : String
deriving DecidableEq, Repr

/-- `Conversation` from `src/preload/types` (part_007). -/
structure Conversation where
  id : String
  platform : String
  title : String
  url : String
  messages : List Message
  createdAt : String
  updatedAt : String
deriving DecidableEq, Repr

/-- Result record of `AnchorDetector.findHeadAnchor`. -/
structure AnchorResult where
  found : Bool
  position : Option Nat
  size : Option Nat
  protectedCount : Option Nat
deriving DecidableEq, Repr

/-- `MessageChanges` from `src/preload/types` (part_007). -/
structure MessageChanges where
  added : List Message
  modified : List Message
  deleted : List String
  merged : List Message
deriving DecidableEq, Repr

/-! ### JS `Map` model: insertion-ordered association lists -/

/-- `Map.set`: overwrite in place if the key is present (keeping its original
iteration position), otherwise append at the end. -/
def jsSet {α : Type} (m : List (String × α)) (k : String) (v : α) : List (String × α) :=
  if (m.map Prod.fst).contains k then
    m.map (fun p => if p.1 = k then (k, v) else p)
  else
    m ++ [(k, v)]

/-- `Map.has`. -/
def jsHas {α : Type} (m : List (String × α)) (k : String) : Bool :=
  (m.map Prod.fst).contains k

/-- `Map.get` (first — and under the map invariant, only — entry with the key). -/
def jsGet {α : Type} (m : List (String × α)) (k : String) : Option α :=
  (m.find? (fun p => p.1 == k)).map Prod.snd

/-- `Map.delete` (under the map invariant there is at most one entry to drop). -/
def jsDelete {α : Type} (m : List (String × α)) (k : String) : List (String × α) :=
  m.filter (fun p => p.1 != k)

/-- Deleting the head's own key strictly shrinks the list (termination measure
for the eviction loop). -/
theorem jsDelete_cons_self_length_lt {α : Type} (k : String) (v : α)
    (tail : List (String × α)) :
    (jsDelete ((k, v) :: tail) k).length < ((k, v) :: tail).length := by
  simp only [jsDelete, List.filter_cons, bne_self_eq_false, List.length_cons]
  exact Nat.lt_succ_of_le (List.length_filter_le _ _)

/-! ### AnchorDetector (part_006, lines 108-167) -/

/-- JS `s.substring(0, n)`, character-based. -/
def strTake (s : String) (n : Nat) : String :=
  String.mk (s.data.take n)

/-- Per-message fingerprint: `sender + ":" + content.substring(0, 100)`. -/
def fingerprint (m : Message) : String :=
  m.sender ++ ":" ++ strTake m.content 100

/-- `array.join('|')`. -/
def joinBar : List String → String
  | [] => ""
  | [s] => s
  | s :: rest => s ++ "|" ++ joinBar rest

/-- The joined fingerprint string of the first `size` messages of `current`
(the local `anchorString` of `findHeadAnchor`). -/
def anchorStr (currentMessages : List Message) (size : Nat) : String :=
  joinBar ((currentMessages.take size).map fingerprint)

/-- The inner window scan of `findHeadAnchor`: the TS loop
`for (let i = 0; i <= storedFingerprints.length - size; i++)`, started at
index `i`, returning the first (leftmost) window position whose joined
fingerprint string equals `anchorString`. `fuel` bounds the remaining
iterations to keep the recursion structural; `slideFrom` supplies enough fuel
for the loop to run to its natural end. -/
def slideFromAux (storedFingerprints : List String) (anchorString : String)
    (size : Nat) : Nat → Nat → Option Nat
  | 0, _ => none
  | fuel + 1, i =>
    if i + size ≤ storedFingerprints.length then
      if joinBar ((storedFingerprints.drop i).take size) = anchorString then some i
      else slideFromAux storedFingerprints anchorString size fuel (i + 1)
    else none

/-- The inner window scan of `findHeadAnchor`, from index `i`. -/
def slideFrom (storedFingerprints : List String) (anchorString : String)
    (size : Nat) (i : Nat) : Option Nat :=
  slideFromAux storedFingerprints anchorString size (storedFingerprints.length + 1 - i) i

/-- The outer size loop of `findHeadAnchor`: sizes are tried from large to
small, so the largest matching size wins. -/
def tryAnchorSizes (currentMessages : List Message) (storedFingerprints : List String) :
    Nat → Option (Nat × Nat)
  | 0 => none
  | size + 1 =>
    match slideFrom storedFingerprints (anchorStr currentMessages (size + 1)) (size + 1) 0 with
    | some i => some (i, size + 1)
    | none => tryAnchorSizes currentMessages storedFingerprints size

/-- The `found = false` result value. -/
def noAnchor : AnchorResult :=
  { found := false, position := none, size := none, protectedCount := none }

/-- `AnchorDetector.findHeadAnchor` (part_006, lines 112-148). -/
def findHeadAnchor (currentMessages storedMessages : List Message) : AnchorResult :=
  if currentMessages.isEmpty || storedMessages.isEmpty then noAnchor
  else
    let storedFingerprints := storedMessages.map fingerprint
    let anchorSize := min 6 currentMessages.length
    match tryAnchorSizes currentMessages storedFingerprints anchorSize with
    | some (i, size) =>
      { found := true, position := some i, size := some size, protectedCount := some i }
    | none => noAnchor

/-- The indexed map of `correctMessageIds`, with `index` the position of the
head of the remaining list within the original array. -/
def correctMessageIdsAux (anchorPosition : Nat) : Nat → List Message → List Message
  | _, [] => []
  | index, message :: rest =>
    { message with
      position := anchorPosition + index
      messageId := "msg_" ++ message.sender ++ "_position_" ++
        toString (anchorPosition + index) } ::
      correctMessageIdsAux anchorPosition (index + 1) rest

/-- `AnchorDetector.correctMessageIds` (part_006, lines 153-166). -/
def correctMessageIds (currentMessages : List Message) (anchorPosition : Nat) : List Message :=
  correctMessageIdsAux anchorPosition 0 currentMessages

/-- The window-match relation the spec describes `findHeadAnchor` by: the
joined fingerprint string of the first `size` messages of `current` equals the
joined fingerprint string of the `size`-wide window of `stored` at `i`. -/
def windowMatchB (current stored : List Message) (size i : Nat) : Bool :=
  decide (i + size ≤ stored.length) &&
    (joinBar (((stored.map fingerprint).drop i).take size)
      == joinBar ((current.take size).map fingerprint))

/-! ### DataUtils (compatibility.ts, lines 53-75): the rolling content hash -/

/-- JS 32-bit signed wrap (`| 0` / bitwise coercion): reduce mod `2^32` into
the range `[-2^31, 2^31)`. -/
def toInt32 (n : Int) : Int :=
  let m := n % 4294967296
  if m < 2147483648 then m else m - 4294967296

/-- One step of `DataUtils.hashContent`:
`hash = ((hash << 5) - hash) + char; hash = hash & hash`. The shift wraps to
int32 first, the sum is exact in float64, the `& hash` wraps the result. -/
def hashStep (h : Int) (c : Nat) : Int :=
  toInt32 (toInt32 (h * 32) - h + c)

/-- Digit character for base 36 (`0-9` then `a-z`), as produced by JS
`Number.prototype.toString(36)`. -/
def base36Digit (n : Nat) : Char :=
  if n < 10 then Char.ofNat (48 + n) else Char.ofNat (87 + n)

/-- Digits of `n` in base 36, most significant first; `fuel ≥ n` suffices for
the division loop to finish. -/
def natToBase36Aux : Nat → Nat → List Char → List Char
  | 0, _, acc => acc
  | fuel + 1, n, acc =>
    if n = 0 then acc
    else natToBase36Aux fuel (n / 36) (base36Digit (n % 36) :: acc)

/-- JS `n.toString(36)` for a natural number. -/
def natToBase36 (n : Nat) : String :=
  if n = 0 then "0" else String.mk (natToBase36Aux n n [])

/-- `DataUtils.hashContent` (compatibility.ts, lines 54-65). Characters are
modelled by Unicode code points (`charCodeAt` agrees on the Basic Multilingual
Plane). -/
def hashContent (str : String) : String :=
  if str.length = 0 then "0"
  else natToBase36 (str.data.foldl (fun h c => hashStep h c.toNat) 0).natAbs

/-! ### The normalizer (compatibility.ts, lines 67-126) -/

/-- `Partial<Message>`: every field optional. -/
structure PartialMessage where
  messageId : Option String
  sender : Option String
  content : Option String
  thinking : Option String
  position : Option Nat
  createdAt : Option String
  updatedAt : Option String
deriving DecidableEq, Repr

/-- JS `x || d` for an optional string: `undefined` and `""` are falsy. -/
def jsOrS (x : Option String) (d : String) : String :=
  match x with
  | none => d
  | some s => if s = "" then d else s

/-- JS `x || d` for an optional number with `0` falsy. -/
def jsOrN (x : Option Nat) (d : Nat) : Nat :=
  match x with
  | none => d
  | some n => if n = 0 then d else n

/-- `DataUtils.generateFallbackMessageId` (compatibility.ts, lines 67-74). -/
def generateFallbackMessageId (message : PartialMessage) : String :=
  let sender := jsOrS message.sender "unknown"
  let content := jsOrS message.content ""
  let position := jsOrN message.position 0
  let hash := hashContent (strTake content 50)
  "msg_" ++ sender ++ "_pos" ++ toString position ++ "_" ++ hash

/-- `Compatibility.normalizeMessage` (compatibility.ts, lines 112-126); the
impure `new Date().toISOString()` is passed in as `now`. -/
def normalizeMessage (message : PartialMessage) (now : String) : Message :=
  { messageId := jsOrS message.messageId (generateFallbackMessageId message)
    sender := jsOrS message.sender "unknown"
    content := jsOrS message.content ""
    thinking := message.thinking
    position := jsOrN message.position 0
    createdAt := jsOrS message.createdAt now
    updatedAt := jsOrS message.updatedAt (jsOrS message.createdAt now) }

/-- A full `Message` used where TS expects a `Partial<Message>`. -/
def msgToPartial (m : Message) : PartialMessage :=
  { messageId := some m.messageId
    sender := some m.sender
    content := some m.content
    thinking := m.thinking
    position := some m.position
    createdAt := some m.createdAt
    updatedAt := some m.updatedAt }

/-! ### The change-set computer (compatibility.ts, lines 146-232) -/

/-- `Compatibility.hasContentChanges` (compatibility.ts, lines 210-214). -/
def hasContentChanges (currentMsg storedMsg : Message) : Bool :=
  currentMsg.content != storedMsg.content || currentMsg.thinking != storedMsg.thinking

/-- `new Map(list.map(msg => [msg.messageId, msg]))`: insertion-ordered,
later entries for a duplicated key overwrite in place. -/
def mapOfMessages (l : List Message) : List (String × Message) :=
  l.foldl (fun acc msg => jsSet acc msg.messageId msg) []

/-- Replace the first entry of `l` whose `messageId` equals `m`'s by `m`
(`findIndex` followed by an in-place assignment). -/
def replaceFirstById : List Message → Message → List Message
  | [], _ => []
  | x :: xs, m =>
    if x.messageId = m.messageId then m :: xs else x :: replaceFirstById xs m

/-- `Compatibility.processMessageChanges` (compatibility.ts, lines 146-208):
the pure change-set computation (the call's side effect on the change history
is `recordChangesSt` below). -/
def processMessageChanges (currentMessages storedMessages : List Message) : MessageChanges :=
  let currentMap := mapOfMessages currentMessages
  let storedMap := mapOfMessages storedMessages
  let added := (currentMap.filter (fun p => !jsHas storedMap p.1)).map Prod.snd
  let deleted := (storedMap.filter (fun p => !jsHas currentMap p.1)).map Prod.fst
  let modified := (currentMap.filter (fun p =>
      match jsGet storedMap p.1 with
      | some storedMsg => hasContentChanges p.2 storedMsg
      | none => false)).map Prod.snd
  let merged0 := storedMessages.filter (fun msg => !deleted.contains msg.messageId)
  let merged1 := modified.foldl replaceFirstById merged0
  { added := added, modified := modified, deleted := deleted, merged := merged1 ++ added }

/-- One entry of `Compatibility.changeHistory` (compatibility.ts, lines
217-225). -/
structure ChangeRecord where
  timestamp : String
  conversationId : Option String
  numNew : Nat
  numUpdated : Nat
  numRemoved : Nat
deriving DecidableEq, Repr

/-- The mutable state of a `Compatibility` instance observable through
`getCacheStats` (compatibility.ts, lines 82-86): the message cache (values of
type `α`, which the source types as `any`), the hash cache and the change
history. -/
structure CompatState (α : Type) where
  messageCache : List (String × α)
  hashCache : List (String × String)
  changeHistory : List ChangeRecord
deriving DecidableEq, Repr

/-- `Compatibility.recordChanges` (compatibility.ts, lines 216-232):
push one record, then `shift()` if the history exceeds `maxHistorySize = 100`. -/
def recordChangesSt {α : Type} (st : CompatState α) (now : String)
    (changes : MessageChanges) : CompatState α :=
  let record : ChangeRecord :=
    { timestamp := now, conversationId := none
      numNew := changes.added.length
      numUpdated := changes.modified.length
      numRemoved := changes.deleted.length }
  let history := st.changeHistory ++ [record]
  { st with changeHistory := if history.length > 100 then history.drop 1 else history }

/-- A call of `processMessageChanges` on a `Compatibility` instance: the
returned change set together with the instance state after the call. -/
def processMessageChangesSt {α : Type} (st : CompatState α) (now : String)
    (currentMessages storedMessages : List Message) : MessageChanges × CompatState α :=
  let changes := processMessageChanges currentMessages storedMessages
  (changes, recordChangesSt st now changes)

/-! ### CacheManager (part_006, lines 19-103) -/

/-- A cache entry `{ data, timestamp }`. -/
structure CEntry (α : Type) where
  data : α
  timestamp : Int
deriving DecidableEq, Repr

/-- `CacheManager.get` (part_006, lines 31-37): return the value only while
`now - timestamp < expiry`; no mutation. -/
def cacheGet {α : Type} (expiry : Int) (cache : List (String × CEntry α))
    (key : String) (now : Int) : Option α :=
  match cache.find? (fun p => p.1 == key) with
  | some p => if now - p.2.timestamp < expiry then some p.2.data else none
  | none => none

/-- `CacheManager.cleanupExpired` (part_006, lines 53-64): collect the keys
with `now - timestamp > expiry`, then delete each. -/
def cleanupExpired {α : Type} (expiry : Int) (now : Int)
    (cache : List (String × CEntry α)) : List (String × CEntry α) :=
  let expiredKeys :=
    (cache.filter (fun p => decide (now - p.2.timestamp > expiry))).map Prod.fst
  expiredKeys.foldl jsDelete cache

/-- `CacheManager.enforceMaxSize` (part_006, lines 66-75): while the cache is
at or above `maxSize`, delete the oldest-inserted key — but `if (oldestKey)`
is a JS truthiness test, so an empty-string oldest key (or an empty cache)
breaks the loop. `fuel` bounds the remaining iterations to keep the recursion
structural; each iteration strictly shrinks the cache, so `enforceMaxSize`
supplies enough fuel for the loop to run to its natural end. -/
def enforceMaxSizeAux {α : Type} (maxSize : Nat) :
    Nat → List (String × CEntry α) → List (String × CEntry α)
  | 0, cache => cache
  | _ + 1, [] => []
  | fuel + 1, (oldestKey, e) :: rest =>
    if maxSize ≤ ((oldestKey, e) :: rest).length then
      if oldestKey = "" then (oldestKey, e) :: rest
      else enforceMaxSizeAux maxSize fuel (jsDelete ((oldestKey, e) :: rest) oldestKey)
    else (oldestKey, e) :: rest

/-- The `while` loop of `CacheManager.enforceMaxSize`. -/
def enforceMaxSize {α : Type} (maxSize : Nat) (cache : List (String × CEntry α)) :
    List (String × CEntry α) :=
  enforceMaxSizeAux maxSize (cache.length + 1) cache

/-- `CacheManager.set` (part_006, lines 39-43): sweep expired entries, enforce
the size bound, then insert. -/
def cacheSet {α : Type} (maxSize : Nat) (expiry : Int)
    (cache : List (String × CEntry α)) (key : String) (data : α) (now : Int) :
    List (String × CEntry α) :=
  jsSet (enforceMaxSize maxSize (cleanupExpired expiry now cache)) key ⟨data, now⟩

/-- One externally triggerable operation on a `CacheManager`. -/
inductive CacheOp (α : Type) where
  | get (key : String) (now : Int)
  | set (key : String) (data : α) (now : Int)
  | del (key : String)
  | clear
deriving DecidableEq, Repr

/-- State transition of one cache operation (`get` reads without mutating;
`delete` and `clear` are the source's `delete`/`clear`). -/
def applyCacheOp {α : Type} (maxSize : Nat) (expiry : Int)
    (cache : List (String × CEntry α)) : CacheOp α → List (String × CEntry α)
  | .get _ _ => cache
  | .set key data now => cacheSet maxSize expiry cache key data now
  | .del key => jsDelete cache key
  | .clear => []

/-- A sequence of cache operations applied to a cache state. -/
def applyCacheOps {α : Type} (maxSize : Nat) (expiry : Int)
    (cache : List (String × CEntry α)) (ops : List (CacheOp α)) :
    List (String × CEntry α) :=
  ops.foldl (applyCacheOp maxSize expiry) cache

/-- The keys a `set` operation inserts must be non-empty for the eviction loop
to make progress; other operations are unrestricted. -/
def cacheOpKeyOk {α : Type} : CacheOp α → Bool
  | .set key _ _ => key != ""
  | _ => true

/-! ### StorageManager (part_006, lines 172-392) -/

/-- Result record of `ElectronStorageAdapter.saveConversation`
(storage-adapter.ts, lines 26-34). -/
structure StoreResult where
  success : Bool
  error : Option String
deriving DecidableEq, Repr

/-- The state a `StorageManager` instance acts on: its in-process cache, the
persistent store behind the IPC adapter (keyed by conversation id), and
whether the IPC save call currently rejects (`saveFails`). -/
structure ManagerState where
  cache : List (String × CEntry Conversation)
  store : List (String × Conversation)
  saveFails : Bool
deriving DecidableEq, Repr

/-- `CacheManager` default `maxSize` (part_006, line 25). -/
def managerMaxSize : Nat := 100

/-- `CacheManager` default `expiry` = 5 minutes in milliseconds. -/
def managerExpiry : Int := 300000

/-- The persistent store's read, keyed by conversation id
(`storage:get-conversation`). -/
def storeGet (store : List (String × Conversation)) (conversationId : String) :
    Option Conversation :=
  (store.find? (fun p => p.1 == conversationId)).map Prod.snd

/-- `ElectronStorageAdapter.saveConversation` (storage-adapter.ts, lines
26-34): on an IPC rejection the error is caught and `{success: false}` is
returned — the adapter never throws, and the store is unchanged. -/
def saveConversationA (st : ManagerState) (conversation : Conversation) :
    StoreResult × ManagerState :=
  if st.saveFails then
    ({ success := false, error := some "ipc-error" }, st)
  else
    ({ success := true, error := none },
      { st with store := jsSet st.store conversation.id conversation })

/-- `StorageManager.getConversation` (part_006, lines 188-205): cache first,
then the store, caching a hit. -/
def getConversation (st : ManagerState) (conversationId : String) (now : Int) :
    Option Conversation × ManagerState :=
  match cacheGet managerExpiry st.cache conversationId now with
  | some cached => (some cached, st)
  | none =>
    match storeGet st.store conversationId with
    | some conversation =>
      (some conversation,
        { st with cache := (cacheSet managerMaxSize managerExpiry st.cache
            conversationId conversation now) })
    | none => (none, st)

/-- `StorageManager.updateMetadata` (part_006, lines 351-362). -/
def updateMetadata (nowIso : String) (conversation : Conversation) : Conversation :=
  let conversation := { conversation with updatedAt := nowIso }
  if conversation.title = "" ∨ conversation.title = "New Chat" then
    match conversation.messages.find? (fun m => m.sender == "user") with
    | some firstUserMessage =>
      { conversation with
        title :=
          if firstUserMessage.content.length > 50 then
            strTake firstUserMessage.content 50 ++ "..."
          else firstUserMessage.content }
    | none => conversation
  else conversation

/-- Insert `m` after every already-placed message whose position does not
exceed `m`'s. -/
def insertByPosition (m : Message) : List Message → List Message
  | [] => [m]
  | x :: xs => if m.position < x.position then m :: x :: xs else x :: insertByPosition m xs

/-- `messages.sort((a, b) => (a.position || 0) - (b.position || 0))`:
JS `Array.prototype.sort` is guaranteed stable, and over the total comparator
`position ≤ position` a stable sort is extensionally unique, so the modelling
by a stable insertion sort is exact. -/
def sortByPosition (l : List Message) : List Message :=
  l.foldl (fun sorted m => insertByPosition m sorted) []

/-- Result record of `StorageManager.smartIncrementalUpdate`. -/
structure UpdateResult where
  success : Bool
  conversation : Conversation
  anchor : Option Bool
deriving DecidableEq, Repr

/-- `StorageManager.processWithAnchor` (part_006, lines 240-299). When the
anchor is found, `position > 0` splits off the protected zone and corrects the
current messages' ids; position 0 operates on the whole stored list. When no
anchor is found the page content overwrites the conversation. Every write path
calls the adapter's save (whose result the source discards) and then updates
the cache. -/
def processWithAnchor (st : ManagerState) (conversation : Conversation)
    (currentMessages storedMessages : List Message) (anchor : AnchorResult)
    (now : Int) (nowIso : String) : UpdateResult × ManagerState :=
  if anchor.found then
    let p := anchor.position.getD 0
    let protectedZone := storedMessages.take p
    let operationZone := storedMessages.drop p
    let correctedCurrentMessages :=
      if 0 < p then correctMessageIds currentMessages p else currentMessages
    let changes := processMessageChanges correctedCurrentMessages operationZone
    if changes.added.isEmpty && changes.modified.isEmpty && changes.deleted.isEmpty then
      ({ success := true, conversation := conversation, anchor := some true }, st)
    else
      let updated := updateMetadata nowIso
        { conversation with messages := sortByPosition (protectedZone ++ changes.merged) }
      let save := saveConversationA st updated
      ({ success := true, conversation := updated, anchor := some true },
        { save.2 with cache := (cacheSet managerMaxSize managerExpiry save.2.cache
            updated.id updated now) })
  else
    let updated := updateMetadata nowIso
      { conversation with
        messages := currentMessages.map (fun msg => normalizeMessage (msgToPartial msg) nowIso) }
    let save := saveConversationA st updated
    ({ success := true, conversation := updated, anchor := some false },
      { save.2 with cache := (cacheSet managerMaxSize managerExpiry save.2.cache
          updated.id updated now) })

/-- `StorageManager.saveNewConversation` (part_006, lines 304-346). -/
def saveNewConversation (st : ManagerState) (conversationId : String)
    (currentMessages : List Message) (conversation : Option Conversation)
    (platform : Option String) (now : Int) (nowIso : String) :
    UpdateResult × ManagerState :=
  if currentMessages.isEmpty then
    ({ success := true,
       conversation := conversation.getD
         { id := conversationId, platform := jsOrS platform "", title := "New Chat",
           url := "", messages := [], createdAt := nowIso, updatedAt := nowIso },
       anchor := none }, st)
  else
    let normalizedMessages :=
      currentMessages.map (fun msg => normalizeMessage (msgToPartial msg) nowIso)
    let base := conversation.getD
      { id := conversationId, platform := jsOrS platform "", title := "New Chat",
        url := "", messages := normalizedMessages, createdAt := nowIso, updatedAt := nowIso }
    let newConversation := updateMetadata nowIso { base with messages := normalizedMessages }
    let save := saveConversationA st newConversation
    ({ success := true, conversation := newConversation, anchor := none },
      { save.2 with cache := (cacheSet managerMaxSize managerExpiry save.2.cache
          conversationId newConversation now) })

/-- The branch dispatch of `smartIncrementalUpdate` on the loaded prior state:
no stored messages means a full save, an empty scrape against stored history
is skipped, and otherwise anchor matching runs. -/
def dispatchUpdate (st1 : ManagerState) (conversationId : String)
    (currentMessages : List Message) (platform : Option String)
    (now : Int) (nowIso : String) : Option Conversation → UpdateResult × ManagerState
  | none => saveNewConversation st1 conversationId currentMessages none platform now nowIso
  | some conversation =>
    if conversation.messages.isEmpty then
      saveNewConversation st1 conversationId currentMessages (some conversation)
        platform now nowIso
    else if currentMessages.isEmpty then
      ({ success := true, conversation := conversation, anchor := none }, st1)
    else
      processWithAnchor st1 conversation currentMessages conversation.messages
        (findHeadAnchor currentMessages conversation.messages) now nowIso

/-- `StorageManager.smartIncrementalUpdate` (part_006, lines 210-235). The
`currentMessages` array-validity check is enforced by the type. -/
def smartIncrementalUpdate (st : ManagerState) (conversationId : String)
    (currentMessages : List Message) (platform : Option String)
    (now : Int) (nowIso : String) : UpdateResult × ManagerState :=
  let loaded := getConversation st conversationId now
  dispatchUpdate loaded.2 conversationId currentMessages platform now nowIso loaded.1

/-! ### Lemmas: the anchor window scan -/

theorem slideFromAux_eq_some {fps : List String} {a : String} {size : Nat} :
    ∀ {fuel i j : Nat}, slideFromAux fps a size fuel i = some j →
      i ≤ j ∧ j + size ≤ fps.length ∧ joinBar ((fps.drop j).take size) = a ∧
        ∀ k, i ≤ k → k < j → joinBar ((fps.drop k).take size) ≠ a := by
  intro fuel
  induction fuel with
  | zero => intro i j h; simp [slideFromAux] at h
  | succ fuel IH =>
    intro i j h
    rw [slideFromAux] at h
    by_cases hle : i + size ≤ fps.length
    · rw [if_pos hle] at h
      by_cases heq : joinBar ((fps.drop i).take size) = a
      · rw [if_pos heq] at h
        injection h with h
        subst h
        exact ⟨Nat.le_refl _, hle, heq, fun k hk1 hk2 => absurd (Nat.lt_of_le_of_lt hk1 hk2)
          (Nat.lt_irrefl _)⟩
      · rw [if_neg heq] at h
        obtain ⟨h1, h2, h3, h4⟩ := IH h
        refine ⟨by omega, h2, h3, fun k hk1 hk2 => ?_⟩
        rcases Nat.eq_or_lt_of_le hk1 with hk | hk
        · subst hk
          exact heq
        · exact h4 k hk hk2
    · rw [if_neg hle] at h
      simp at h

theorem slideFromAux_eq_none {fps : List String} {a : String} {size : Nat} :
    ∀ {fuel i : Nat}, fps.length + 1 ≤ i + fuel → slideFromAux fps a size fuel i = none →
      ∀ k, i ≤ k → k + size ≤ fps.length → joinBar ((fps.drop k).take size) ≠ a := by
  intro fuel
  induction fuel with
  | zero => intro i hfuel h k hk1 hk2; omega
  | succ fuel IH =>
    intro i hfuel h k hk1 hk2
    rw [slideFromAux] at h
    by_cases hle : i + size ≤ fps.length
    · rw [if_pos hle] at h
      by_cases heq : joinBar ((fps.drop i).take size) = a
      · rw [if_pos heq] at h
        simp at h
      · rw [if_neg heq] at h
        rcases Nat.eq_or_lt_of_le hk1 with hk | hk
        · subst hk
          exact heq
        · exact IH (by omega) h k hk hk2
    · omega

theorem slideFrom_eq_some {fps : List String} {a : String} {size i j : Nat}
    (h : slideFrom fps a size i = some j) :
    i ≤ j ∧ j + size ≤ fps.length ∧ joinBar ((fps.drop j).take size) = a ∧
      ∀ k, i ≤ k → k < j → joinBar ((fps.drop k).take size) ≠ a :=
  slideFromAux_eq_some h

theorem slideFrom_eq_none {fps : List String} {a : String} {size i : Nat}
    (h : slideFrom fps a size i = none) :
    ∀ k, i ≤ k → k + size ≤ fps.length → joinBar ((fps.drop k).take size) ≠ a :=
  slideFromAux_eq_none (by omega) h

theorem tryAnchorSizes_eq_some (current : List Message) (fps : List String) :
    ∀ s {i sz : Nat}, tryAnchorSizes current fps s = some (i, sz) →
      1 ≤ sz ∧ sz ≤ s ∧ i + sz ≤ fps.length ∧
        joinBar ((fps.drop i).take sz) = anchorStr current sz ∧
        (∀ k, k < i → joinBar ((fps.drop k).take sz) ≠ anchorStr current sz) ∧
        ∀ sz2 j, sz < sz2 → sz2 ≤ s → j + sz2 ≤ fps.length →
          joinBar ((fps.drop j).take sz2) ≠ anchorStr current sz2 := by
  intro s
  induction s with
  | zero => intro i sz h; simp [tryAnchorSizes] at h
  | succ s IH =>
    intro i sz h
    rw [tryAnchorSizes] at h
    cases hm : slideFrom fps (anchorStr current (s + 1)) (s + 1) 0 with
    | some i0 =>
      rw [hm] at h
      injection h with h
      injection h with hfst hsnd
      subst hfst
      subst hsnd
      obtain ⟨_, h2, h3, h4⟩ := slideFrom_eq_some hm
      exact ⟨Nat.succ_le_succ (Nat.zero_le _), Nat.le_refl _, h2, h3,
        fun k hk => h4 k (Nat.zero_le _) hk, fun sz2 j hsz hsz2 _ => by omega⟩
    | none =>
      rw [hm] at h
      obtain ⟨h1, h2, h3, h4, h5, h6⟩ := IH h
      refine ⟨h1, by omega, h3, h4, h5, ?_⟩
      intro sz2 j hsz hsz2 hlen
      rcases Nat.lt_or_ge sz2 (s + 1) with hlt | hge
      · exact h6 sz2 j hsz (by omega) hlen
      · have hsz2eq : sz2 = s + 1 := by omega
        subst hsz2eq
        exact slideFrom_eq_none hm j (Nat.zero_le _) hlen

theorem tryAnchorSizes_eq_none (current : List Message) (fps : List String) :
    ∀ s, tryAnchorSizes current fps s = none →
      ∀ sz, 1 ≤ sz → sz ≤ s → ∀ j, j + sz ≤ fps.length →
        joinBar ((fps.drop j).take sz) ≠ anchorStr current sz := by
  intro s
  induction s with
  | zero => intro h sz h1 h2 j hj; omega
  | succ s IH =>
    intro h sz h1 h2 j hj
    rw [tryAnchorSizes] at h
    cases hm : slideFrom fps (anchorStr current (s + 1)) (s + 1) 0 with
    | some i0 => rw [hm] at h; simp at h
    | none =>
      rw [hm] at h
      rcases Nat.lt_or_ge sz (s + 1) with hlt | hge
      · exact IH h sz h1 (by omega) j hj
      · have hszeq : sz = s + 1 := by omega
        subst hszeq
        exact slideFrom_eq_none hm j (Nat.zero_le _) hj

theorem windowMatchB_iff {current stored : List Message} {size i : Nat} :
    windowMatchB current stored size i = true ↔
      i + size ≤ stored.length ∧
        joinBar (((stored.map fingerprint).drop i).take size) = anchorStr current size := by
  simp [windowMatchB, anchorStr]

theorem windowMatchB_eq_false {current stored : List Message} {size i : Nat}
    (h : ¬(i + size ≤ stored.length ∧
      joinBar (((stored.map fingerprint).drop i).take size) = anchorStr current size)) :
    windowMatchB current stored size i = false := by
  rw [← Bool.not_eq_true, windowMatchB_iff]
  exact h

/-- The anchor found on two identical non-empty sequences is the full-size
window at position 0. -/
theorem findHeadAnchor_self {l : List Message} (h : l ≠ []) :
    findHeadAnchor l l =
      { found := true, position := some 0, size := some (min 6 l.length),
        protectedCount := some 0 } := by
  have hlen : 0 < l.length := List.length_pos.mpr h
  obtain ⟨k, hk⟩ : ∃ k, min 6 l.length = k + 1 := ⟨min 6 l.length - 1, by omega⟩
  have hkle : k + 1 ≤ l.length := by
    rw [← hk]
    exact Nat.min_le_right 6 l.length
  have hslide : slideFrom (l.map fingerprint) (anchorStr l (k + 1)) (k + 1) 0 = some 0 := by
    rw [slideFrom]
    have hfuel : (l.map fingerprint).length + 1 - 0 = l.length + 1 := by simp
    rw [hfuel, slideFromAux]
    rw [if_pos (by simp [hkle])]
    rw [if_pos ?_]
    · rw [List.drop_zero, ← List.map_take]
      rfl
  simp only [findHeadAnchor]
  rw [if_neg (by simp [h])]
  rw [hk, tryAnchorSizes, hslide]

/-- Concrete messages `m0..m4` with pairwise distinct fingerprints, for the
anchor example of the specification. -/
def anchorExampleMsg (i : Nat) : Message :=
  { messageId := toString i, sender := "user", content := "c" ++ toString i,
    thinking := none, position := i, createdAt := "t", updatedAt := "t" }

/-- C2 — Anchor matcher contract: `findHeadAnchor` returns `found = false`
when either sequence is empty; a `found = true` result carries a position `p`
and size `s` with `protectedCount = p` such that the `s`-sized window matches
at `p` (joined-fingerprint comparison), no window of the same size matches
further left, and no larger admissible size (up to `min 6 current.length`)
matches anywhere; a `found = false` result means no admissible size matches at
any position. In particular, for stored `[m0..m4]` and current `[m2,m3,m4]`
with identical fingerprints it returns `found = true`, `position = 2`. -/
theorem findHeadAnchor_contract :
    (∀ current stored : List Message, current = [] ∨ stored = [] →
      findHeadAnchor current stored = noAnchor) ∧
    (∀ current stored : List Message, (findHeadAnchor current stored).found = true →
      ∃ p s, findHeadAnchor current stored =
          { found := true, position := some p, size := some s, protectedCount := some p } ∧
        1 ≤ s ∧ s ≤ min 6 current.length ∧ windowMatchB current stored s p = true ∧
        (∀ i, i < p → windowMatchB current stored s i = false) ∧
        (∀ s2 i, s < s2 → s2 ≤ min 6 current.length →
          windowMatchB current stored s2 i = false)) ∧
    (∀ current stored : List Message, (findHeadAnchor current stored).found = false →
      ∀ s i, 1 ≤ s → s ≤ min 6 current.length → windowMatchB current stored s i = false) ∧
    findHeadAnchor [anchorExampleMsg 2, anchorExampleMsg 3, anchorExampleMsg 4]
        [anchorExampleMsg 0, anchorExampleMsg 1, anchorExampleMsg 2, anchorExampleMsg 3,
          anchorExampleMsg 4] =
      { found := true, position := some 2, size := some 3, protectedCount := some 2 } := by
  refine ⟨?_, ?_, ?_, by decide⟩
  · rintro current stored (rfl | rfl)
    · simp [findHeadAnchor]
    · simp [findHeadAnchor]
  · intro current stored h
    by_cases hemp : (current.isEmpty || stored.isEmpty) = true
    · simp only [findHeadAnchor] at h
      rw [if_pos hemp] at h
      simp [noAnchor] at h
    · cases ht : tryAnchorSizes current (stored.map fingerprint) (min 6 current.length) with
      | none =>
        simp only [findHeadAnchor] at h
        rw [if_neg hemp, ht] at h
        simp [noAnchor] at h
      | some pr =>
        obtain ⟨i, sz⟩ := pr
        obtain ⟨h1, h2, h3, h4, h5, h6⟩ := tryAnchorSizes_eq_some current
          (stored.map fingerprint) (min 6 current.length) ht
        refine ⟨i, sz, ?_, h1, h2, ?_, ?_, ?_⟩
        · simp only [findHeadAnchor]
          rw [if_neg hemp, ht]
        · exact windowMatchB_iff.mpr ⟨by simpa using h3, h4⟩
        · intro k hk
          refine windowMatchB_eq_false ?_
          rintro ⟨-, hke⟩
          exact h5 k hk hke
        · intro s2 k hs2 hs2le
          refine windowMatchB_eq_false ?_
          rintro ⟨hkl, hke⟩
          exact h6 s2 k hs2 hs2le (by simpa using hkl) hke
  · intro current stored h s i h1 h2
    by_cases hemp : (current.isEmpty || stored.isEmpty) = true
    · rcases Bool.or_eq_true_iff.mp hemp with hc | hc
      · have : current = [] := List.isEmpty_iff.mp hc
        subst this
        simp at h2
        omega
      · have : stored = [] := List.isEmpty_iff.mp hc
        subst this
        refine windowMatchB_eq_false ?_
        rintro ⟨hle, -⟩
        simp at hle
        omega
    · cases ht : tryAnchorSizes current (stored.map fingerprint) (min 6 current.length) with
      | some pr =>
        obtain ⟨i0, sz0⟩ := pr
        simp only [findHeadAnchor] at h
        rw [if_neg hemp, ht] at h
        simp at h
      | none =>
        refine windowMatchB_eq_false ?_
        rintro ⟨hle, he⟩
        exact tryAnchorSizes_eq_none current (stored.map fingerprint) (min 6 current.length)
          ht s h1 h2 i (by simpa using hle) he

/-- C2 witness: the negative clause of the contract applied at concrete
mismatching lists, and the empty clause at a concrete list. -/
theorem findHeadAnchor_contract_witness :
    findHeadAnchor [anchorExampleMsg 0] [] = noAnchor ∧
    windowMatchB [anchorExampleMsg 0] [anchorExampleMsg 1] 1 0 = false :=
  ⟨findHeadAnchor_contract.1 [anchorExampleMsg 0] [] (Or.inr rfl),
    findHeadAnchor_contract.2.2.1 [anchorExampleMsg 0] [anchorExampleMsg 1] (by decide)
      1 0 (by decide) (by decide)⟩

/-! ### Lemmas: the JS map model and the change-set computer -/

theorem contains_iff_mem {l : List String} {a : String} :
    l.contains a = true ↔ a ∈ l :=
  List.elem_iff

theorem contains_eq_false_iff {l : List String} {a : String} :
    l.contains a = false ↔ a ∉ l := by
  rw [← Bool.not_eq_true, contains_iff_mem]

theorem jsSet_keys {α : Type} (m : List (String × α)) (k : String) (v : α) :
    (jsSet m k v).map Prod.fst =
      if (m.map Prod.fst).contains k then m.map Prod.fst else m.map Prod.fst ++ [k] := by
  unfold jsSet
  by_cases h : (m.map Prod.fst).contains k
  · rw [if_pos h, if_pos h, List.map_map]
    refine List.map_congr_left ?_
    intro p _
    by_cases hp : p.1 = k
    · simp [hp]
    · simp [hp]
  · rw [if_neg h, if_neg h, List.map_append]
    rfl

theorem jsSet_keys_nodup {α : Type} {m : List (String × α)} (k : String) (v : α)
    (h : (m.map Prod.fst).Nodup) : ((jsSet m k v).map Prod.fst).Nodup := by
  rw [jsSet_keys]
  by_cases hc : (m.map Prod.fst).contains k
  · rw [if_pos hc]
    exact h
  · rw [if_neg hc]
    refine List.Nodup.append h (List.nodup_singleton k) ?_
    intro a ha hb
    rw [List.mem_singleton] at hb
    subst hb
    exact contains_eq_false_iff.mp (Bool.eq_false_iff.mpr hc) ha

theorem mapOfMessages_keys_nodup (l : List Message) :
    ((mapOfMessages l).map Prod.fst).Nodup := by
  suffices h : ∀ acc : List (String × Message), ((acc.map Prod.fst).Nodup) →
      (((l.foldl (fun acc msg => jsSet acc msg.messageId msg) acc)).map Prod.fst).Nodup by
    exact h [] (by simp)
  induction l with
  | nil => intro acc hacc; exact hacc
  | cons m rest IH =>
    intro acc hacc
    exact IH _ (jsSet_keys_nodup _ _ hacc)

theorem find?_eq_of_mem_of_nodup {α : Type} {m : List (String × α)}
    (hnd : (m.map Prod.fst).Nodup) {p : String × α} (hp : p ∈ m) :
    m.find? (fun q => q.1 == p.1) = some p := by
  induction m with
  | nil => cases hp
  | cons q rest IH =>
    rw [List.map_cons, List.nodup_cons] at hnd
    rcases List.mem_cons.mp hp with rfl | hmem
    · rw [List.find?_cons_of_pos _ (by simp)]
    · by_cases hq : q.1 = p.1
      · exfalso
        exact hnd.1 (hq ▸ List.mem_map_of_mem Prod.fst hmem)
      · rw [List.find?_cons_of_neg _ (by simp [hq])]
        exact IH hnd.2 hmem

theorem jsGet_eq_of_mem_of_nodup {α : Type} {m : List (String × α)}
    (hnd : (m.map Prod.fst).Nodup) {p : String × α} (hp : p ∈ m) :
    jsGet m p.1 = some p.2 := by
  rw [jsGet, find?_eq_of_mem_of_nodup hnd hp]
  rfl

theorem jsHas_of_mem {α : Type} {m : List (String × α)} {p : String × α} (hp : p ∈ m) :
    jsHas m p.1 = true :=
  contains_iff_mem.mpr (List.mem_map_of_mem Prod.fst hp)

/-- On two identical inputs the change-set computer finds no additions,
deletions or modifications. -/
theorem processMessageChanges_self (l : List Message) :
    (processMessageChanges l l).added = [] ∧
    (processMessageChanges l l).modified = [] ∧
    (processMessageChanges l l).deleted = [] := by
  refine ⟨?_, ?_, ?_⟩
  · show ((mapOfMessages l).filter (fun p => !jsHas (mapOfMessages l) p.1)).map Prod.snd = []
    rw [List.filter_eq_nil_iff.mpr, List.map_nil]
    intro p hp
    simp [jsHas_of_mem hp]
  · show ((mapOfMessages l).filter (fun p =>
      match jsGet (mapOfMessages l) p.1 with
      | some storedMsg => hasContentChanges p.2 storedMsg
      | none => false)).map Prod.snd = []
    rw [List.filter_eq_nil_iff.mpr, List.map_nil]
    intro p hp
    rw [jsGet_eq_of_mem_of_nodup (mapOfMessages_keys_nodup l) hp]
    simp [hasContentChanges]
  · show ((mapOfMessages l).filter (fun p => !jsHas (mapOfMessages l) p.1)).map Prod.fst = []
    rw [List.filter_eq_nil_iff.mpr, List.map_nil]
    intro p hp
    simp [jsHas_of_mem hp]

/-! ### C5: the change-set computation as the specification words it -/

/-- Spec §4.2 wording: `added` = every current message whose `messageId` is
absent from storedZone's map. -/
def addedSpec (current stored : List Message) : List Message :=
  current.filter (fun m => !(stored.map Message.messageId).contains m.messageId)

/-- Spec §4.2 wording: `deleted` = every storedZone `messageId` absent from
current's map. -/
def deletedSpec (current stored : List Message) : List String :=
  (stored.filter (fun s => !(current.map Message.messageId).contains s.messageId)).map
    Message.messageId

/-- Spec §4.2 wording: `modified` = every current message whose `messageId`
exists in storedZone and whose `content` or `thinking` differs textually. -/
def modifiedSpec (current stored : List Message) : List Message :=
  current.filter (fun m =>
    stored.any (fun s => s.messageId == m.messageId && hasContentChanges m s))

/-- Spec §4.2 wording: `merged` = storedZone filtered to remove `deleted` ids,
each surviving entry replaced in place by its `modified` counterpart where
applicable, then `added` entries appended at the end. -/
def mergedSpec (current stored : List Message) : List Message :=
  (stored.filter (fun s => (current.map Message.messageId).contains s.messageId)).map
    (fun s =>
      match (modifiedSpec current stored).find? (fun m => m.messageId == s.messageId) with
      | some m => m
      | none => s) ++ addedSpec current stored

theorem mapOfMessages_eq_of_nodup {l : List Message}
    (h : (l.map Message.messageId).Nodup) :
    mapOfMessages l = l.map (fun m => (m.messageId, m)) := by
  suffices haux : ∀ acc : List (String × Message),
      ((acc.map Prod.fst) ++ l.map Message.messageId).Nodup →
      l.foldl (fun a msg => jsSet a msg.messageId msg) acc =
        acc ++ l.map (fun m => (m.messageId, m)) by
    simpa using haux [] (by simpa using h)
  clear h
  induction l with
  | nil => intro acc _; simp [List.foldl_nil]
  | cons m rest IH =>
    intro acc hacc
    rw [List.map_cons] at hacc
    have hnotmem : m.messageId ∉ acc.map Prod.fst := by
      rw [List.nodup_append] at hacc
      intro hmem
      exact hacc.2.2 hmem (List.mem_cons_self _ _)
    have hset : jsSet acc m.messageId m = acc ++ [(m.messageId, m)] := by
      rw [jsSet, if_neg ?_]
      rw [Bool.not_eq_true, contains_eq_false_iff]
      exact hnotmem
    rw [List.foldl_cons, hset, IH]
    · simp
    · rw [List.map_append]
      have : (acc.map Prod.fst ++ [(m.messageId, m)].map Prod.fst) ++
          rest.map Message.messageId =
          acc.map Prod.fst ++ m.messageId :: rest.map Message.messageId := by
        simp
      rw [this]
      exact hacc

theorem eq_of_mem_of_nodup_ids {l : List Message}
    (h : (l.map Message.messageId).Nodup) {a b : Message}
    (ha : a ∈ l) (hb : b ∈ l) (hid : a.messageId = b.messageId) : a = b := by
  induction l with
  | nil => cases ha
  | cons c rest IH =>
    rw [List.map_cons, List.nodup_cons] at h
    rcases List.mem_cons.mp ha with rfl | ha2
    · rcases List.mem_cons.mp hb with rfl | hb2
      · rfl
      · exact absurd (hid ▸ List.mem_map_of_mem Message.messageId hb2) h.1
    · rcases List.mem_cons.mp hb with rfl | hb2
      · exact absurd (hid ▸ List.mem_map_of_mem Message.messageId ha2) h.1
      · exact IH h.2 ha2 hb2

theorem map_pair_keys (l : List Message) :
    (l.map (fun m => (m.messageId, m))).map Prod.fst = l.map Message.messageId := by
  rw [List.map_map]
  rfl

theorem jsHas_map_pair (l : List Message) (k : String) :
    jsHas (l.map (fun m => (m.messageId, m))) k = (l.map Message.messageId).contains k := by
  rw [jsHas, map_pair_keys]

theorem jsGet_map_pair (l : List Message) (k : String) :
    jsGet (l.map (fun m => (m.messageId, m))) k = l.find? (fun s => s.messageId == k) := by
  rw [jsGet, List.find?_map, Option.map_map]
  have h : Prod.snd ∘ (fun m : Message => (m.messageId, m)) = id := rfl
  rw [h, Option.map_id]
  rfl

theorem filter_map_pair_snd (l : List Message) (p : (String × Message) → Bool) :
    ((l.map (fun m => (m.messageId, m))).filter p).map Prod.snd =
      l.filter (fun m => p (m.messageId, m)) := by
  rw [List.filter_map, List.map_map]
  have h : Prod.snd ∘ (fun m : Message => (m.messageId, m)) = id := rfl
  rw [h, List.map_id]
  rfl

theorem filter_map_pair_fst (l : List Message) (p : (String × Message) → Bool) :
    ((l.map (fun m => (m.messageId, m))).filter p).map Prod.fst =
      (l.filter (fun m => p (m.messageId, m))).map Message.messageId := by
  rw [List.filter_map, List.map_map]
  rfl

theorem find?_match_eq_any {stored : List Message}
    (h : (stored.map Message.messageId).Nodup) (k : String) (P : Message → Bool) :
    (match stored.find? (fun s => s.messageId == k) with
      | some s => P s
      | none => false) =
      stored.any (fun s => s.messageId == k && P s) := by
  induction stored with
  | nil => rfl
  | cons s0 rest IH =>
    rw [List.map_cons, List.nodup_cons] at h
    by_cases h0 : s0.messageId = k
    · rw [List.find?_cons_of_pos _ (by simp [h0])]
      have hrest : rest.any (fun s => s.messageId == k && P s) = false := by
        rw [List.any_eq_false]
        intro s hs
        have hne : s.messageId ≠ k := by
          intro he
          apply h.1
          rw [h0, ← he]
          exact List.mem_map_of_mem Message.messageId hs
        simp [hne]
      rw [List.any_cons, hrest]
      simp [h0]
    · rw [List.find?_cons_of_neg _ (by simp [h0]), List.any_cons, IH h.2]
      simp [h0]

theorem replaceFirstById_eq_map {l : List Message}
    (hnd : (l.map Message.messageId).Nodup) (m : Message) :
    replaceFirstById l m = l.map (fun s => if s.messageId = m.messageId then m else s) := by
  induction l with
  | nil => rfl
  | cons x xs IH =>
    rw [List.map_cons, List.nodup_cons] at hnd
    rw [replaceFirstById]
    by_cases hx : x.messageId = m.messageId
    · rw [if_pos hx, List.map_cons, if_pos hx]
      have hmapid : List.map (fun s => if s.messageId = m.messageId then m else s) xs = xs := by
        refine (List.map_congr_left ?_).trans (List.map_id xs)
        intro s hs
        have hne : s.messageId ≠ m.messageId := by
          intro he
          apply hnd.1
          rw [hx, ← he]
          exact List.mem_map_of_mem Message.messageId hs
        simp [hne]
      rw [hmapid]
    · rw [if_neg hx, List.map_cons, if_neg hx, IH hnd.2]

theorem foldl_replaceFirstById_eq :
    ∀ (mods l : List Message), (l.map Message.messageId).Nodup →
      (mods.map Message.messageId).Nodup →
      mods.foldl replaceFirstById l =
        l.map (fun s =>
          match mods.find? (fun m => m.messageId == s.messageId) with
          | some m => m
          | none => s)
  | [], l, _, _ => by
    simp only [List.foldl_nil, List.find?_nil]
    exact (List.map_id l).symm
  | m0 :: ms, l, hl, hm => by
    rw [List.map_cons, List.nodup_cons] at hm
    have hids : ∀ s ∈ l,
        (if s.messageId = m0.messageId then m0 else s).messageId = s.messageId := by
      intro s _
      by_cases h0 : s.messageId = m0.messageId
      · rw [if_pos h0, h0]
      · rw [if_neg h0]
    have hl2 : ((l.map (fun s => if s.messageId = m0.messageId then m0 else s)).map
        Message.messageId).Nodup := by
      rw [List.map_map]
      have : l.map (Message.messageId ∘ fun s => if s.messageId = m0.messageId then m0 else s) =
          l.map Message.messageId := List.map_congr_left hids
      rw [this]
      exact hl
    rw [List.foldl_cons, replaceFirstById_eq_map hl m0,
      foldl_replaceFirstById_eq ms _ hl2 hm.2, List.map_map]
    refine List.map_congr_left ?_
    intro s hs
    have hnone : ms.find? (fun m => m.messageId == m0.messageId) = none := by
      rw [List.find?_eq_none]
      intro m hmem
      simp only [beq_iff_eq]
      intro he
      exact hm.1 (he ▸ List.mem_map_of_mem Message.messageId hmem)
    by_cases h0 : s.messageId = m0.messageId
    · show (match ms.find? (fun m => m.messageId ==
          (if s.messageId = m0.messageId then m0 else s).messageId) with
        | some m => m
        | none => (if s.messageId = m0.messageId then m0 else s)) = _
      rw [if_pos h0, hnone, List.find?_cons_of_pos _ (by simp [h0])]
    · show (match ms.find? (fun m => m.messageId ==
          (if s.messageId = m0.messageId then m0 else s).messageId) with
        | some m => m
        | none => (if s.messageId = m0.messageId then m0 else s)) = _
      rw [if_neg h0, List.find?_cons_of_neg _ ?_]
      simp only [beq_iff_eq]
      exact fun he => h0 he.symm

theorem merged0_eq {current stored : List Message}
    (hs : (stored.map Message.messageId).Nodup) :
    stored.filter (fun msg => !(deletedSpec current stored).contains msg.messageId) =
      stored.filter (fun s => (current.map Message.messageId).contains s.messageId) := by
  refine List.filter_congr ?_
  intro msg hmsg
  by_cases hcur : (current.map Message.messageId).contains msg.messageId = true
  · have hdel : (deletedSpec current stored).contains msg.messageId = false := by
      rw [contains_eq_false_iff]
      intro hmem
      obtain ⟨s, hsmem, hsid⟩ := List.mem_map.mp hmem
      rw [List.mem_filter] at hsmem
      have hseq : s = msg := eq_of_mem_of_nodup_ids hs hsmem.1 hmsg hsid
      have := hsmem.2
      rw [hseq] at this
      rw [Bool.not_eq_true', contains_eq_false_iff] at this
      exact this (contains_iff_mem.mp hcur)
    rw [hdel, hcur]
    rfl
  · have hcur2 : (current.map Message.messageId).contains msg.messageId = false :=
      Bool.eq_false_iff.mpr hcur
    have hdel : (deletedSpec current stored).contains msg.messageId = true := by
      rw [contains_iff_mem, deletedSpec]
      refine List.mem_map.mpr ⟨msg, ?_, rfl⟩
      rw [List.mem_filter]
      exact ⟨hmsg, by rw [hcur2]; rfl⟩
    rw [hdel, hcur2]
    rfl

/-- C5 — Change-set computation: under unique message ids,
`processMessageChanges` returns exactly the added / deleted / modified /
merged sets the specification describes, and with an empty current list every
storedZone id is deleted and `merged` is empty. -/
theorem processMessageChanges_spec (current stored : List Message)
    (hc : (current.map Message.messageId).Nodup)
    (hs : (stored.map Message.messageId).Nodup) :
    processMessageChanges current stored =
      { added := addedSpec current stored, modified := modifiedSpec current stored,
        deleted := deletedSpec current stored, merged := mergedSpec current stored } ∧
    (current = [] →
      (processMessageChanges current stored).deleted = stored.map Message.messageId ∧
      (processMessageChanges current stored).merged = []) := by
  have hcur := mapOfMessages_eq_of_nodup hc
  have hsto := mapOfMessages_eq_of_nodup hs
  have hAdd : ((mapOfMessages current).filter
      (fun p => !jsHas (mapOfMessages stored) p.1)).map Prod.snd =
      addedSpec current stored := by
    rw [hcur, hsto, filter_map_pair_snd]
    refine List.filter_congr ?_
    intro m _
    rw [jsHas_map_pair]
  have hDel : ((mapOfMessages stored).filter
      (fun p => !jsHas (mapOfMessages current) p.1)).map Prod.fst =
      deletedSpec current stored := by
    rw [hcur, hsto, filter_map_pair_fst, deletedSpec]
    congr 1
    refine List.filter_congr ?_
    intro s _
    rw [jsHas_map_pair]
  have hMod : ((mapOfMessages current).filter (fun p =>
      match jsGet (mapOfMessages stored) p.1 with
      | some storedMsg => hasContentChanges p.2 storedMsg
      | none => false)).map Prod.snd =
      modifiedSpec current stored := by
    rw [hcur, hsto, filter_map_pair_snd]
    refine List.filter_congr ?_
    intro m _
    rw [jsGet_map_pair]
    exact find?_match_eq_any hs m.messageId (fun s => hasContentChanges m s)
  have hMerged0nd : ((stored.filter (fun s =>
      (current.map Message.messageId).contains s.messageId)).map Message.messageId).Nodup :=
    ((List.filter_sublist stored).map Message.messageId).nodup hs
  have hModnd : ((modifiedSpec current stored).map Message.messageId).Nodup :=
    ((List.filter_sublist current).map Message.messageId).nodup hc
  have hmain : processMessageChanges current stored =
      { added := addedSpec current stored, modified := modifiedSpec current stored,
        deleted := deletedSpec current stored, merged := mergedSpec current stored } := by
    simp only [processMessageChanges]
    rw [hAdd, hDel, hMod, merged0_eq hs,
      foldl_replaceFirstById_eq _ _ hMerged0nd hModnd]
    rfl
  refine ⟨hmain, ?_⟩
  rintro rfl
  rw [hmain]
  constructor
  · show deletedSpec [] stored = stored.map Message.messageId
    rw [deletedSpec]
    congr 1
    rw [List.filter_eq_self]
    intro s _
    rfl
  · show mergedSpec [] stored = []
    rw [mergedSpec, addedSpec]
    rw [List.filter_nil, List.append_nil, List.map_eq_nil_iff]
    rw [List.filter_eq_nil_iff]
    intro s _
    simp [List.contains]

/-- C5 witness: the change set of a concrete pair of unique-id lists. -/
theorem processMessageChanges_spec_witness :
    processMessageChanges [anchorExampleMsg 1] [anchorExampleMsg 0, anchorExampleMsg 1] =
      { added := addedSpec [anchorExampleMsg 1] [anchorExampleMsg 0, anchorExampleMsg 1],
        modified := modifiedSpec [anchorExampleMsg 1] [anchorExampleMsg 0, anchorExampleMsg 1],
        deleted := deletedSpec [anchorExampleMsg 1] [anchorExampleMsg 0, anchorExampleMsg 1],
        merged := mergedSpec [anchorExampleMsg 1] [anchorExampleMsg 0, anchorExampleMsg 1] } :=
  (processMessageChanges_spec [anchorExampleMsg 1] [anchorExampleMsg 0, anchorExampleMsg 1]
    (by decide) (by decide)).1

/-! ### C9: the normalizer round-trip -/

theorem jsOrS_some_of_ne {v : String} (h : v ≠ "") (d : String) : jsOrS (some v) d = v := by
  simp [jsOrS, h]

theorem jsOrS_some_empty_default (v : String) : jsOrS (some v) "" = v := by
  by_cases h : v = "" <;> simp [jsOrS, h]

theorem jsOrS_ne_empty {x : Option String} {d : String} (hd : d ≠ "") : jsOrS x d ≠ "" := by
  cases x with
  | none => exact hd
  | some s =>
    by_cases hs : s = "" <;> simp [jsOrS, hs, hd]

theorem jsOrN_some_zero_default (n : Nat) : jsOrN (some n) 0 = n := by
  by_cases h : n = 0 <;> simp [jsOrN, h]

theorem generateFallbackMessageId_ne_empty (m : PartialMessage) :
    generateFallbackMessageId m ≠ "" := by
  unfold generateFallbackMessageId
  intro h
  have hdata := congrArg String.data h
  simp [String.data_append] at hdata

/-- C9 — Normalization round-trip: normalizing an already-normalized message
changes nothing, field for field, for any non-empty first clock value and any
second clock value. -/
theorem normalizeMessage_roundtrip (m : PartialMessage) (now1 now2 : String)
    (h : now1 ≠ "") :
    normalizeMessage (msgToPartial (normalizeMessage m now1)) now2 =
      normalizeMessage m now1 := by
  have hid : jsOrS m.messageId (generateFallbackMessageId m) ≠ "" :=
    jsOrS_ne_empty (generateFallbackMessageId_ne_empty m)
  have hsender : jsOrS m.sender "unknown" ≠ "" := jsOrS_ne_empty (by decide)
  have hcreated : jsOrS m.createdAt now1 ≠ "" := jsOrS_ne_empty h
  have hupdated : jsOrS m.updatedAt (jsOrS m.createdAt now1) ≠ "" :=
    jsOrS_ne_empty hcreated
  show Message.mk _ _ _ _ _ _ _ = Message.mk _ _ _ _ _ _ _
  simp only [normalizeMessage, msgToPartial, Message.mk.injEq]
  refine ⟨jsOrS_some_of_ne hid _, jsOrS_some_of_ne hsender _, jsOrS_some_empty_default _,
    trivial, jsOrN_some_zero_default _, jsOrS_some_of_ne hcreated _, jsOrS_some_of_ne hupdated _⟩

/-- C9 witness: the round trip evaluated on a concrete partial message. -/
theorem normalizeMessage_roundtrip_witness :
    normalizeMessage (msgToPartial (normalizeMessage
      { messageId := none, sender := some "user", content := some "hello",
        thinking := none, position := none, createdAt := none, updatedAt := none } "NOW"))
      "LATER" =
      normalizeMessage
        { messageId := none, sender := some "user", content := some "hello",
          thinking := none, position := none, createdAt := none, updatedAt := none } "NOW" :=
  normalizeMessage_roundtrip _ "NOW" "LATER" (by decide)

/-! ### C8: the change-set computer's state effects -/

/-- C8 counterexample: one call of `processMessageChanges` on a fresh
`Compatibility` instance appends a record to the observable change history,
so the instance's observable state does change. -/
theorem processMessageChanges_state_counterexample :
    (processMessageChangesSt
        ({ messageCache := [], hashCache := [], changeHistory := [] } : CompatState Unit)
        "ts" [] []).2.changeHistory ≠
      ({ messageCache := [], hashCache := [], changeHistory := [] } :
        CompatState Unit).changeHistory := by
  decide

/-- C8 amended: the returned change set depends only on the two input message
lists (it equals the pure `processMessageChanges`), and the call leaves the
message cache and hash cache unchanged — but it appends one record to the
change history, dropping the oldest once the history exceeds 100 records. -/
theorem processMessageChangesSt_spec {α : Type} (st : CompatState α) (now : String)
    (currentMessages storedMessages : List Message) :
    (processMessageChangesSt st now currentMessages storedMessages).1 =
      processMessageChanges currentMessages storedMessages ∧
    (processMessageChangesSt st now currentMessages storedMessages).2.messageCache =
      st.messageCache ∧
    (processMessageChangesSt st now currentMessages storedMessages).2.hashCache =
      st.hashCache ∧
    (processMessageChangesSt st now currentMessages storedMessages).2 =
      recordChangesSt st now (processMessageChanges currentMessages storedMessages) :=
  ⟨rfl, rfl, rfl, rfl⟩

/-! ### C10: fingerprint join aliasing -/

/-- The aliasing example: the first current message's content contains the
join delimiter, shifting where the `|` boundaries fall. -/
def aliasCurrent : List Message :=
  [{ messageId := "a1", sender := "user", content := "a|user:b", thinking := none,
     position := 0, createdAt := "t", updatedAt := "t" },
   { messageId := "a2", sender := "user", content := "c", thinking := none,
     position := 1, createdAt := "t", updatedAt := "t" }]

/-- The aliasing example's stored side: different per-message fingerprints
whose '|'-join coincides with `aliasCurrent`'s. -/
def aliasStored : List Message :=
  [{ messageId := "b1", sender := "user", content := "a", thinking := none,
     position := 0, createdAt := "t", updatedAt := "t" },
   { messageId := "b2", sender := "user", content := "b|user:c", thinking := none,
     position := 1, createdAt := "t", updatedAt := "t" }]

/-- C10 — fingerprint join aliasing: joined-string equality does not imply
per-message alignment: `findHeadAnchor` reports an anchor of size 2 at
position 0 on `aliasCurrent` / `aliasStored`, although the individual
fingerprint of the first current message differs from the first stored one. -/
theorem findHeadAnchor_join_aliasing :
    aliasCurrent ≠ [] ∧ aliasStored ≠ [] ∧
    findHeadAnchor aliasCurrent aliasStored =
      { found := true, position := some 0, size := some 2, protectedCount := some 0 } ∧
    1 < 2 ∧ 0 < 2 ∧
    (aliasCurrent.map fingerprint)[0]? ≠ (aliasStored.map fingerprint)[0 + 0]? := by
  refine ⟨by decide, by decide, by decide, by decide, by decide, by decide⟩

/-! ### C7: the cache size bound -/

theorem foldl_jsDelete_sublist {α : Type} (keys : List String)
    (cache : List (String × α)) : (keys.foldl jsDelete cache).Sublist cache := by
  induction keys generalizing cache with
  | nil => exact List.Sublist.refl _
  | cons k ks IH => exact (IH _).trans (List.filter_sublist _)

theorem cleanupExpired_sublist {α : Type} (expiry now : Int)
    (cache : List (String × CEntry α)) : (cleanupExpired expiry now cache).Sublist cache :=
  foldl_jsDelete_sublist _ _

theorem enforceMaxSizeAux_sublist {α : Type} (maxSize : Nat) :
    ∀ (fuel : Nat) (cache : List (String × CEntry α)),
      (enforceMaxSizeAux maxSize fuel cache).Sublist cache := by
  intro fuel
  induction fuel with
  | zero => intro cache; exact List.Sublist.refl _
  | succ fuel IH =>
    intro cache
    match cache with
    | [] => exact List.Sublist.refl _
    | (oldestKey, e) :: rest =>
      rw [enforceMaxSizeAux]
      by_cases hle : maxSize ≤ ((oldestKey, e) :: rest).length
      · rw [if_pos hle]
        by_cases hk : oldestKey = ""
        · rw [if_pos hk]
        · rw [if_neg hk]
          exact (IH _).trans (List.filter_sublist _)
      · rw [if_neg hle]

theorem enforceMaxSizeAux_length_lt {α : Type} {maxSize : Nat} (hmax : 1 ≤ maxSize) :
    ∀ (fuel : Nat) (cache : List (String × CEntry α)), cache.length < fuel →
      (∀ p ∈ cache, p.1 ≠ "") → (enforceMaxSizeAux maxSize fuel cache).length < maxSize := by
  intro fuel
  induction fuel with
  | zero => intro cache hfuel; omega
  | succ fuel IH =>
    intro cache hfuel hkeys
    match cache, hfuel, hkeys with
    | [], hfuel, _ =>
      rw [enforceMaxSizeAux]
      simpa using hmax
    | (oldestKey, e) :: rest, hfuel, hkeys =>
      rw [enforceMaxSizeAux]
      by_cases hle : maxSize ≤ ((oldestKey, e) :: rest).length
      · rw [if_pos hle]
        have hk : oldestKey ≠ "" := hkeys (oldestKey, e) (List.mem_cons_self _ _)
        rw [if_neg hk]
        refine IH _ ?_ ?_
        · have hlt := jsDelete_cons_self_length_lt oldestKey e rest
          simp only [List.length_cons] at hlt hfuel
          omega
        · intro p hp
          exact hkeys p ((List.filter_sublist _).subset hp)
      · rw [if_neg hle]
        simp only [List.length_cons] at hle ⊢
        omega

theorem jsSet_length_le {α : Type} (m : List (String × α)) (k : String) (v : α) :
    (jsSet m k v).length ≤ m.length + 1 := by
  rw [jsSet]
  by_cases hc : ((m.map Prod.fst).contains k) = true
  · rw [if_pos hc, List.length_map]
    omega
  · rw [if_neg hc, List.length_append]
    simp

theorem jsSet_keys_ne_empty {α : Type} {m : List (String × α)} {k : String}
    (hk : k ≠ "") (hm : ∀ p ∈ m, p.1 ≠ "") (v : α) :
    ∀ p ∈ jsSet m k v, p.1 ≠ "" := by
  intro p hp
  rw [jsSet] at hp
  by_cases hc : ((m.map Prod.fst).contains k) = true
  · rw [if_pos hc] at hp
    obtain ⟨q, hq, rfl⟩ := List.mem_map.mp hp
    by_cases hqk : q.1 = k
    · rw [if_pos hqk]
      exact hk
    · rw [if_neg hqk]
      exact hm q hq
  · rw [if_neg hc] at hp
    rcases List.mem_append.mp hp with hp2 | hp2
    · exact hm p hp2
    · rw [List.mem_singleton] at hp2
      subst hp2
      exact hk

theorem applyCacheOp_invariant {α : Type} (maxSize : Nat) (expiry : Int)
    (hmax : 1 ≤ maxSize) {cache : List (String × CEntry α)}
    (hkeys : ∀ p ∈ cache, p.1 ≠ "") (hlen : cache.length ≤ maxSize)
    (op : CacheOp α) (hop : cacheOpKeyOk op = true) :
    (∀ p ∈ applyCacheOp maxSize expiry cache op, p.1 ≠ "") ∧
      (applyCacheOp maxSize expiry cache op).length ≤ maxSize := by
  cases op with
  | get k now => exact ⟨hkeys, hlen⟩
  | set k v now =>
    have hclean := cleanupExpired_sublist expiry now cache
    have hkeys1 : ∀ p ∈ cleanupExpired expiry now cache, p.1 ≠ "" :=
      fun p hp => hkeys p (hclean.subset hp)
    have henf := enforceMaxSizeAux_sublist maxSize
      ((cleanupExpired expiry now cache).length + 1) (cleanupExpired expiry now cache)
    have hkeys2 : ∀ p ∈ enforceMaxSize maxSize (cleanupExpired expiry now cache), p.1 ≠ "" :=
      fun p hp => hkeys1 p (henf.subset hp)
    have hlen2 : (enforceMaxSize maxSize (cleanupExpired expiry now cache)).length < maxSize :=
      enforceMaxSizeAux_length_lt hmax _ _ (Nat.lt_succ_self _) hkeys1
    have hkne : k ≠ "" := by simpa [cacheOpKeyOk] using hop
    constructor
    · exact jsSet_keys_ne_empty hkne hkeys2 _
    · calc (jsSet (enforceMaxSize maxSize (cleanupExpired expiry now cache)) k
            ⟨v, now⟩).length
          ≤ (enforceMaxSize maxSize (cleanupExpired expiry now cache)).length + 1 :=
            jsSet_length_le _ _ _
      _ ≤ maxSize := by omega
  | del k =>
    refine ⟨fun p hp => hkeys p ((List.filter_sublist _).subset hp), ?_⟩
    exact Nat.le_trans (List.length_filter_le _ _) hlen
  | clear => simp [applyCacheOp]

theorem applyCacheOps_invariant {α : Type} {maxSize : Nat} {expiry : Int}
    (hmax : 1 ≤ maxSize) :
    ∀ (ops : List (CacheOp α)) (cache : List (String × CEntry α)),
      (∀ p ∈ cache, p.1 ≠ "") → cache.length ≤ maxSize →
      (∀ op ∈ ops, cacheOpKeyOk op = true) →
      (applyCacheOps maxSize expiry cache ops).length ≤ maxSize := by
  intro ops
  induction ops with
  | nil => intro cache _ hlen _; exact hlen
  | cons op rest IH =>
    intro cache hkeys hlen hops
    have hstep := applyCacheOp_invariant maxSize expiry hmax hkeys hlen op
      (hops op (List.mem_cons_self _ _))
    exact IH _ hstep.1 hstep.2 (fun o ho => hops o (List.mem_cons_of_mem _ ho))

/-- C7 counterexample: with `maxSize = 1`, inserting first under the empty
string key and then under another key leaves 2 entries — the eviction loop's
`if (oldestKey)` truthiness test breaks on the falsy empty-string oldest key,
so the bound claimed for every key sequence fails. -/
theorem cacheManager_size_bound_counterexample :
    1 ≤ 1 ∧
    ¬((applyCacheOps 1 1000 ([] : List (String × CEntry Nat))
        [CacheOp.set "" 10 0, CacheOp.set "x" 20 0]).length ≤ 1) := by
  decide

/-- C7 amended — Cache size bound for non-empty keys: for every
`maxSize ≥ 1`, after any sequence of get/set/delete/clear operations whose
`set` keys are all non-empty, the cache holds at most `maxSize` entries; and
inserting `maxSize + 1` distinct non-empty keys (none expired) leaves exactly
`maxSize` entries, with the earliest-inserted key the one evicted. -/
theorem cacheManager_size_bound (maxSize : Nat) (expiry : Int)
    (ops : List (CacheOp Nat)) (hmax : 1 ≤ maxSize)
    (hops : ∀ op ∈ ops, cacheOpKeyOk op = true) :
    (applyCacheOps maxSize expiry ([] : List (String × CEntry Nat)) ops).length ≤ maxSize ∧
    ((applyCacheOps 2 1000 ([] : List (String × CEntry Nat))
        [CacheOp.set "a" 1 0, CacheOp.set "b" 2 0, CacheOp.set "c" 3 0]).map Prod.fst =
      ["b", "c"]) := by
  refine ⟨?_, by decide⟩
  exact applyCacheOps_invariant hmax ops [] (by simp) (by simp) hops

/-- C7 witness: the amended bound applied to the concrete three-insert
sequence at `maxSize = 2`. -/
theorem cacheManager_size_bound_witness :
    (applyCacheOps 2 1000 ([] : List (String × CEntry Nat))
      [CacheOp.set "a" 1 0, CacheOp.set "b" 2 0, CacheOp.set "c" 3 0]).length ≤ 2 :=
  (cacheManager_size_bound 2 1000
    [CacheOp.set "a" 1 0, CacheOp.set "b" 2 0, CacheOp.set "c" 3 0]
    (by decide) (by decide)).1

/-! ### C1: protect-on-lazy-load -/

theorem updateMetadata_messages (nowIso : String) (c : Conversation) :
    (updateMetadata nowIso c).messages = c.messages := by
  rw [updateMetadata]
  split
  · split <;> rfl
  · rfl

theorem updateMetadata_id (nowIso : String) (c : Conversation) :
    (updateMetadata nowIso c).id = c.id := by
  rw [updateMetadata]
  split
  · split <;> rfl
  · rfl

theorem insertByPosition_perm (m : Message) (l : List Message) :
    (insertByPosition m l).Perm (m :: l) := by
  induction l with
  | nil => exact List.Perm.refl _
  | cons x xs IH =>
    rw [insertByPosition]
    by_cases h : m.position < x.position
    · rw [if_pos h]
    · rw [if_neg h]
      exact (IH.cons x).trans (List.Perm.swap m x xs)

theorem sortByPosition_perm (l : List Message) : (sortByPosition l).Perm l := by
  suffices haux : ∀ acc : List Message,
      (l.foldl (fun sorted m => insertByPosition m sorted) acc).Perm (l ++ acc) by
    simpa using haux []
  induction l with
  | nil => intro acc; simp [List.foldl_nil]
  | cons m rest IH =>
    intro acc
    rw [List.foldl_cons]
    refine (IH _).trans ?_
    refine (List.Perm.append_left rest (insertByPosition_perm m acc)).trans ?_
    exact List.perm_middle.trans (List.Perm.refl _)

theorem mem_sortByPosition {a : Message} {l : List Message} :
    a ∈ sortByPosition l ↔ a ∈ l :=
  (sortByPosition_perm l).mem_iff

/-- C1 — Protect-on-lazy-load: when the stored conversation has messages,
the scrape is non-empty and `findHeadAnchor` finds an anchor at a position
`p > 0`, the conversation returned by `smartIncrementalUpdate` is successful
and still contains every message of the protected zone (stored indices
`[0, p)`), whether or not the change-set computer reports real changes. -/
theorem protect_on_lazy_load (st : ManagerState) (conversationId : String)
    (currentMessages : List Message) (platform : Option String) (now : Int)
    (nowIso : String) (conv : Conversation) (p : Nat)
    (hload : (getConversation st conversationId now).1 = some conv)
    (hstored : conv.messages ≠ [])
    (hcur : currentMessages ≠ [])
    (hfound : (findHeadAnchor currentMessages conv.messages).found = true)
    (hpos : (findHeadAnchor currentMessages conv.messages).position = some p)
    (hp : 0 < p) :
    (smartIncrementalUpdate st conversationId currentMessages platform now nowIso).1.success =
      true ∧
    ∀ m ∈ conv.messages.take p,
      m ∈ (smartIncrementalUpdate st conversationId currentMessages platform now
        nowIso).1.conversation.messages := by
  simp only [smartIncrementalUpdate]
  rw [hload, dispatchUpdate]
  rw [if_neg (by simp [hstored]), if_neg (by simp [hcur])]
  simp only [processWithAnchor]
  rw [if_pos hfound, hpos]
  simp only [Option.getD_some]
  set changes := processMessageChanges (correctMessageIds currentMessages p)
    (conv.messages.drop p) with hchanges
  rw [if_pos hp]
  by_cases hreal : (changes.added.isEmpty && changes.modified.isEmpty &&
      changes.deleted.isEmpty) = true
  · rw [if_pos hreal]
    refine ⟨rfl, ?_⟩
    intro m hm
    exact List.take_subset p conv.messages hm
  · rw [if_neg hreal]
    refine ⟨rfl, ?_⟩
    intro m hm
    rw [updateMetadata_messages]
    rw [mem_sortByPosition]
    exact List.mem_append_left _ hm

/-- A stored head message the current scrape no longer renders (large
position, to exercise the post-merge sort). -/
def idemP : Message :=
  { messageId := "pid", sender := "user", content := "old", thinking := none,
    position := 100, createdAt := "t", updatedAt := "t" }

/-- The stored tail message the anchor matches (its id is exactly the one
`correctMessageIds` regenerates at position 1). -/
def idemA : Message :=
  { messageId := "msg_user_position_1", sender := "user", content := "hi",
    thinking := some "x", position := 101, createdAt := "t", updatedAt := "t" }

/-- The freshly scraped message: same fingerprint as `idemA`, its own id. -/
def idemC : Message :=
  { messageId := "i1", sender := "user", content := "hi", thinking := none,
    position := 0, createdAt := "t", updatedAt := "t" }

/-- A stored conversation holding `[idemP, idemA]`. -/
def idemConv : Conversation :=
  { id := "c6", platform := "p", title := "T", url := "",
    messages := [idemP, idemA], createdAt := "t0", updatedAt := "t0" }

/-- Manager state with `idemConv` in the store and a cold cache. -/
def idemState : ManagerState :=
  { cache := [], store := [("c6", idemConv)], saveFails := false }

/-- C1 witness: the protected head message `idemP` survives the concrete
reconciliation that matches an anchor at position 1. -/
theorem protect_on_lazy_load_witness :
    idemP ∈ (smartIncrementalUpdate idemState "c6" [idemC] none 0
      "iso1").1.conversation.messages :=
  (protect_on_lazy_load idemState "c6" [idemC] none 0 "iso1" idemConv 1 (by decide)
    (by decide) (by decide) (by decide) (by decide) (by decide)).2 idemP (by decide)

/-! ### C4: the empty-scrape guard -/

theorem getConversation_store (st : ManagerState) (conversationId : String) (now : Int) :
    (getConversation st conversationId now).2.store = st.store := by
  rw [getConversation]
  cases cacheGet managerExpiry st.cache conversationId now with
  | some cached => rfl
  | none =>
    cases storeGet st.store conversationId with
    | some conversation => rfl
    | none => rfl

/-- C4 counterexample: with a cold cache, even the skip path's preceding load
inserts the conversation into the cache, so "no cache update occurs" fails as
universally stated. -/
theorem empty_scrape_guard_counterexample :
    (smartIncrementalUpdate idemState "c6" [] none 0 "iso").2.cache ≠
      idemState.cache := by
  decide

/-- C4 amended — Empty-scrape guard: with stored messages present and an
empty scrape, `smartIncrementalUpdate` returns success with the conversation
unchanged and performs no store write and no write-path cache update: the
final state is exactly the state left by the read (`getConversation`), whose
only possible cache change is read-through caching of the loaded, unchanged
conversation on a cache miss; on a cache hit the state is entirely
unchanged. -/
theorem empty_scrape_guard (st : ManagerState) (conversationId : String)
    (platform : Option String) (now : Int) (nowIso : String) (conv : Conversation)
    (hload : (getConversation st conversationId now).1 = some conv)
    (hstored : conv.messages ≠ []) :
    smartIncrementalUpdate st conversationId [] platform now nowIso =
      ({ success := true, conversation := conv, anchor := none },
        (getConversation st conversationId now).2) ∧
    (getConversation st conversationId now).2.store = st.store ∧
    (cacheGet managerExpiry st.cache conversationId now = some conv →
      (getConversation st conversationId now).2 = st) := by
  refine ⟨?_, getConversation_store st conversationId now, ?_⟩
  · simp only [smartIncrementalUpdate]
    rw [hload, dispatchUpdate]
    rw [if_neg (by simp [hstored]),
      if_pos (show (List.isEmpty ([] : List Message)) = true from rfl)]
  · intro hhit
    rw [getConversation, hhit]

/-- C4 witness: the skip path on the concrete stored conversation. -/
theorem empty_scrape_guard_witness :
    smartIncrementalUpdate idemState "c6" [] none 0 "iso" =
      ({ success := true, conversation := idemConv, anchor := none },
        (getConversation idemState "c6" 0).2) ∧
    (getConversation idemState "c6" 0).2.store = idemState.store :=
  ⟨(empty_scrape_guard idemState "c6" none 0 "iso" idemConv (by decide) (by decide)).1,
    (empty_scrape_guard idemState "c6" none 0 "iso" idemConv (by decide) (by decide)).2.1⟩

/-! ### C3: the silently swallowed save failure -/

/-- A state whose persistent save rejects (`saveFails`), holding `idemConv`. -/
def failState : ManagerState :=
  { cache := [], store := [("c6", idemConv)], saveFails := true }

/-- A scraped message unrelated to anything stored (forces the full-overwrite
write path). -/
def unrelatedMsg : Message :=
  { messageId := "z1", sender := "user", content := "unrelated", thinking := none,
    position := 0, createdAt := "t", updatedAt := "t" }

/-- C3 — at a failing store save, the adapter catches the rejection and
returns `{success: false}`, `processWithAnchor` discards that result, updates
the cache anyway and reports overall success: the failure does not propagate,
and cache and store diverge (the cache holds the new messages, the store the
old conversation). -/
theorem save_failure_swallowed :
    (smartIncrementalUpdate failState "c6" [unrelatedMsg] none 0 "iso").1.success = true ∧
    (smartIncrementalUpdate failState "c6" [unrelatedMsg] none 0 "iso").2.store =
      failState.store ∧
    cacheGet managerExpiry
        (smartIncrementalUpdate failState "c6" [unrelatedMsg] none 0 "iso").2.cache "c6" 0 ≠
      storeGet (smartIncrementalUpdate failState "c6" [unrelatedMsg] none 0 "iso").2.store
        "c6" := by
  refine ⟨by decide, by decide, by decide⟩

/-! ### C6: reconcile idempotence -/

theorem jsSet_find?_self {α : Type} (k : String) (v : α) :
    ∀ m : List (String × α), (jsSet m k v).find? (fun p => p.1 == k) = some (k, v) := by
  intro m
  induction m with
  | nil =>
    rw [jsSet, if_neg (by simp)]
    simp
  | cons q rest IH =>
    by_cases hq : q.1 = k
    · have hc : (((q :: rest).map Prod.fst).contains k) = true := by
        rw [List.map_cons]
        refine contains_iff_mem.mpr ?_
        rw [← hq]
        exact List.mem_cons_self _ _
      rw [jsSet, if_pos hc, List.map_cons, List.find?_cons_of_pos]
      · rw [if_pos hq]
      · rw [if_pos hq]
        simp
    · by_cases hc : ((rest.map Prod.fst).contains k) = true
      · have hc2 : (((q :: rest).map Prod.fst).contains k) = true := by
          rw [List.map_cons]
          exact contains_iff_mem.mpr (List.mem_cons_of_mem _ (contains_iff_mem.mp hc))
        rw [jsSet, if_pos hc2, List.map_cons, List.find?_cons_of_neg]
        · have hIH := IH
          rw [jsSet, if_pos hc] at hIH
          exact hIH
        · rw [if_neg hq]
          simp [hq]
      · have hc2 : (((q :: rest).map Prod.fst).contains k) = false := by
          rw [List.map_cons, contains_eq_false_iff]
          intro hmem
          rcases List.mem_cons.mp hmem with h1 | h2
          · exact hq h1.symm
          · exact (contains_eq_false_iff.mp (Bool.eq_false_iff.mpr hc)) h2
        have hnc : ¬(((q :: rest).map Prod.fst).contains k = true) := by
          rw [hc2]
          exact Bool.false_ne_true
        have hnq : ¬((fun p : String × α => p.1 == k) q = true) := by
          simp only [beq_iff_eq]
          exact hq
        rw [jsSet, if_neg hnc, List.cons_append]
        have hfind : List.find? (fun p : String × α => p.1 == k) (q :: (rest ++ [(k, v)])) =
            List.find? (fun p : String × α => p.1 == k) (rest ++ [(k, v)]) :=
          List.find?_cons_of_neg _ hnq
        rw [hfind]
        have hIH := IH
        rw [jsSet, if_neg hc] at hIH
        exact hIH

theorem cacheGet_cacheSet_self {α : Type} (maxSize : Nat)
    (cache : List (String × CEntry α)) (k : String) (v : α) (now : Int) :
    cacheGet managerExpiry (cacheSet maxSize managerExpiry cache k v now) k now = some v := by
  rw [cacheSet, cacheGet, jsSet_find?_self]
  show (if now - now < managerExpiry then some v else none) = some v
  rw [if_pos (by rw [managerExpiry]; omega)]

/-- A reconcile call that loads a cached conversation whose stored messages
equal the scraped ones is a no-op: the self-anchor is found at position 0,
the change set is empty, and the call returns the loaded conversation with
the state untouched. -/
theorem smartIncrementalUpdate_self_skip (st1 : ManagerState) (conversationId : String)
    (currentMessages : List Message) (platform : Option String) (now : Int)
    (nowIso2 : String) (C : Conversation)
    (hget : cacheGet managerExpiry st1.cache conversationId now = some C)
    (hmsgs : C.messages = currentMessages)
    (hcur : currentMessages ≠ []) :
    smartIncrementalUpdate st1 conversationId currentMessages platform now nowIso2 =
      ({ success := true, conversation := C, anchor := some true }, st1) := by
  have hloaded : getConversation st1 conversationId now = (some C, st1) := by
    rw [getConversation, hget]
  simp only [smartIncrementalUpdate, hloaded]
  rw [dispatchUpdate]
  rw [if_neg (by simp [hmsgs, hcur]), if_neg (by simp [hcur])]
  rw [hmsgs, findHeadAnchor_self hcur]
  simp only [processWithAnchor, Option.getD_some]
  rw [if_pos trivial]
  rw [if_neg (Nat.lt_irrefl 0)]
  rw [List.take_zero, List.drop_zero]
  obtain ⟨e1, e2, e3⟩ := processMessageChanges_self currentMessages
  rw [if_pos (by rw [e1, e2, e3]; rfl)]

/-- C6 counterexample: a first reconcile that matches an anchor at position 1
rewrites the scraped message's id to `msg_user_position_1`; reconciling again
with the same raw scrape matches the anchor at position 0, so the raw id
`i1` no longer matches anything stored: the whole stored list is treated as
deleted, the conversation changes and a second store write happens. -/
theorem reconcile_idempotence_counterexample :
    (smartIncrementalUpdate idemState "c6" [idemC] none 0 "iso1").1.success = true ∧
    (smartIncrementalUpdate (smartIncrementalUpdate idemState "c6" [idemC] none 0 "iso1").2
        "c6" [idemC] none 0 "iso2").1.conversation ≠
      (smartIncrementalUpdate idemState "c6" [idemC] none 0 "iso1").1.conversation ∧
    (smartIncrementalUpdate (smartIncrementalUpdate idemState "c6" [idemC] none 0 "iso1").2
        "c6" [idemC] none 0 "iso2").2.store ≠
      (smartIncrementalUpdate idemState "c6" [idemC] none 0 "iso1").2.store := by
  refine ⟨by decide, by decide, by decide⟩

/-- C6 amended — Idempotence on the rebuild paths: when every scraped message
is already normalized and the first reconcile takes the new-conversation path
(nothing loaded) or the full-overwrite path (anchor not found, for a loaded
conversation whose `id` equals the conversation key), reconciling again
immediately with the exact same `currentMessages` returns `success = true`,
the unchanged conversation, and leaves the state — cache and store — exactly
as the first call left it (hence no store write on the second call). On the
anchor-corrected path idempotence fails (see the counterexample). -/
theorem reconcile_idempotent_on_rebuild (st : ManagerState) (conversationId : String)
    (currentMessages : List Message) (platform : Option String) (now : Int)
    (nowIso1 nowIso2 : String)
    (hfix : ∀ m ∈ currentMessages, normalizeMessage (msgToPartial m) nowIso1 = m)
    (hcur : currentMessages ≠ [])
    (hpath : (getConversation st conversationId now).1 = none ∨
      ∃ conv, (getConversation st conversationId now).1 = some conv ∧
        conv.id = conversationId ∧ conv.messages ≠ [] ∧
        (findHeadAnchor currentMessages conv.messages).found = false) :
    smartIncrementalUpdate
        (smartIncrementalUpdate st conversationId currentMessages platform now nowIso1).2
        conversationId currentMessages platform now nowIso2 =
      ({ success := true,
         conversation := (smartIncrementalUpdate st conversationId currentMessages
           platform now nowIso1).1.conversation,
         anchor := some true },
        (smartIncrementalUpdate st conversationId currentMessages platform now
          nowIso1).2) := by
  have hnorm : currentMessages.map (fun m => normalizeMessage (msgToPartial m) nowIso1) =
      currentMessages :=
    (List.map_congr_left hfix).trans (List.map_id _)
  rcases hpath with hnone | ⟨conv, hsome, hid, hmsgne, hnf⟩
  · set C0 := updateMetadata nowIso1
      { id := conversationId, platform := jsOrS platform "", title := "New Chat",
        url := "", messages := currentMessages, createdAt := nowIso1,
        updatedAt := nowIso1 } with hC0
    have hr1 : smartIncrementalUpdate st conversationId currentMessages platform now
        nowIso1 =
        ({ success := true, conversation := C0, anchor := none },
          { (saveConversationA (getConversation st conversationId now).2 C0).2 with
            cache := (cacheSet managerMaxSize managerExpiry
              (saveConversationA (getConversation st conversationId now).2 C0).2.cache
              conversationId C0 now) }) := by
      simp only [smartIncrementalUpdate]
      rw [hnone, dispatchUpdate]
      simp only [saveNewConversation]
      rw [if_neg (by simp [hcur]), hnorm]
      rw [hC0]
      simp [Option.getD]
    have hmsgs : C0.messages = currentMessages := by
      rw [hC0, updateMetadata_messages]
    have hget : cacheGet managerExpiry
        (smartIncrementalUpdate st conversationId currentMessages platform now
          nowIso1).2.cache conversationId now = some C0 := by
      rw [hr1]
      exact cacheGet_cacheSet_self managerMaxSize _ conversationId C0 now
    rw [smartIncrementalUpdate_self_skip _ conversationId currentMessages platform now
      nowIso2 C0 hget hmsgs hcur]
    rw [hr1]
  · set C1 := updateMetadata nowIso1 { conv with messages := currentMessages } with hC1
    have hidC : C1.id = conversationId := by
      rw [hC1, updateMetadata_id]
      exact hid
    have hr1 : smartIncrementalUpdate st conversationId currentMessages platform now
        nowIso1 =
        ({ success := true, conversation := C1, anchor := some false },
          { (saveConversationA (getConversation st conversationId now).2 C1).2 with
            cache := (cacheSet managerMaxSize managerExpiry
              (saveConversationA (getConversation st conversationId now).2 C1).2.cache
              C1.id C1 now) }) := by
      simp only [smartIncrementalUpdate]
      rw [hsome, dispatchUpdate]
      rw [if_neg (by simp [hmsgne]), if_neg (by simp [hcur])]
      simp only [processWithAnchor]
      rw [if_neg (by simp [hnf]), hnorm]
    have hmsgs : C1.messages = currentMessages := by
      rw [hC1, updateMetadata_messages]
    have hget : cacheGet managerExpiry
        (smartIncrementalUpdate st conversationId currentMessages platform now
          nowIso1).2.cache conversationId now = some C1 := by
      rw [hr1]
      show cacheGet managerExpiry (cacheSet managerMaxSize managerExpiry _ C1.id C1 now)
        conversationId now = some C1
      rw [hidC]
      exact cacheGet_cacheSet_self managerMaxSize _ conversationId C1 now
    rw [smartIncrementalUpdate_self_skip _ conversationId currentMessages platform now
      nowIso2 C1 hget hmsgs hcur]
    rw [hr1]

/-- C6 witness: the amended idempotence on a concrete new-conversation run
(empty initial state, one already-normalized scraped message). -/
theorem reconcile_idempotent_on_rebuild_witness :
    smartIncrementalUpdate
        (smartIncrementalUpdate { cache := [], store := [], saveFails := false } "w1"
          [idemC] none 0 "iso1").2 "w1" [idemC] none 0 "iso2" =
      ({ success := true,
         conversation := (smartIncrementalUpdate
           { cache := [], store := [], saveFails := false } "w1" [idemC] none 0
           "iso1").1.conversation,
         anchor := some true },
        (smartIncrementalUpdate { cache := [], store := [], saveFails := false } "w1"
          [idemC] none 0 "iso1").2) :=
  reconcile_idempotent_on_rebuild { cache := [], store := [], saveFails := false } "w1"
    [idemC] none 0 "iso1" "iso2"
    (by intro m hm; rw [List.mem_singleton] at hm; rw [hm]; decide)
    (by decide) (Or.inl (by decide))

end AntiGravity
